import Mathlib

/-
  Verification of the secret-resolution engine of hoophq/plugin-secretsmanager
  (main.go). Strings are modelled as lists of characters, with the byte-level
  library operations (base64, JSON decoding of flat string-to-string objects,
  colon splitting) given executable models. The process environment and the
  remote AWS call are explicit parameters of the state; provider invocations
  are recorded as an event trace so that fetch counts are observable.
-/

namespace SMPlugin

abbrev Str := List Char

def s2l (s : String) : Str := s.data

/-- Model of Go strings.Split with a single-character separator. -/
def goSplit (sep : Char) : Str → List Str
  | [] => [[]]
  | c :: rest =>
    if c = sep then [] :: goSplit sep rest
    else
      match goSplit sep rest with
      | [] => [[c]]
      | p :: ps => (c :: p) :: ps

/-- Go %q on a plain string: the string surrounded by double quotes. -/
def quoteStr (s : Str) : Str := '\"' :: (s ++ ['\"'])

/-- Go map indexing: the value stored under a key, if any. -/
def lookupVal (k : Str) : List (Str × Str) → Option Str
  | [] => none
  | (k', v) :: rest => if k' = k then some v else lookupVal k rest

/-- Key membership in an association list (a Go map). -/
def hasKey (k : Str) : List (Str × Str) → Bool
  | [] => false
  | (k', _) :: rest => if k' = k then true else hasKey k rest

/-- Insertion into a Go map: replaces the binding when the key exists. -/
def upsert : List (Str × Str) → Str → Str → List (Str × Str)
  | [], k, v => [(k, v)]
  | (k', v') :: rest, k, v =>
    if k' = k then (k, v) :: rest else (k', v') :: upsert rest k v

/-- Does the pattern occur at the head of the text? -/
def leadsWith : Str → Str → Bool
  | [], _ => true
  | _ :: _, [] => false
  | p :: ps, c :: cs => if p = c then leadsWith ps cs else false

/-- Does the pattern occur anywhere in the text? -/
def containsSub (pat : Str) : Str → Bool
  | [] => leadsWith pat []
  | c :: cs => leadsWith pat (c :: cs) || containsSub pat cs

/- ## base64 (model of encoding/base64 StdEncoding) -/

def b64chars : Str :=
  ("ABCDEFGHIJKLMNOPQRSTUVWXYZabcdefghijklmnopqrstuvwxyz0123456789+/").data

def b64charOf (n : Nat) : Char := b64chars.getD n 'A'

def b64indexOf (c : Char) : Option Nat := b64chars.findIdx? (fun x => x = c)

def b64encodeBytes : List Nat → Str
  | b1 :: b2 :: b3 :: rest =>
    let n := b1 * 65536 + b2 * 256 + b3
    b64charOf (n / 262144 % 64) :: b64charOf (n / 4096 % 64) ::
      b64charOf (n / 64 % 64) :: b64charOf (n % 64) :: b64encodeBytes rest
  | [b1, b2] =>
    let n := b1 * 1024 + b2 * 4
    [b64charOf (n / 4096 % 64), b64charOf (n / 64 % 64), b64charOf (n % 64), '=']
  | [b1] => [b64charOf (b1 / 4), b64charOf (b1 % 4 * 16), '=', '=']
  | [] => []

def b64decodeBytes : Str → Option (List Nat)
  | [] => some []
  | c1 :: c2 :: c3 :: c4 :: rest =>
    match b64indexOf c1, b64indexOf c2 with
    | some i1, some i2 =>
      if c3 = '=' then
        if c4 = '=' ∧ rest = [] then some [i1 * 4 + i2 / 16] else none
      else
        match b64indexOf c3 with
        | some i3 =>
          if c4 = '=' then
            if rest = [] then some [i1 * 4 + i2 / 16, i2 % 16 * 16 + i3 / 4] else none
          else
            match b64indexOf c4 with
            | some i4 =>
              match b64decodeBytes rest with
              | some bs =>
                some ((i1 * 4 + i2 / 16) :: (i2 % 16 * 16 + i3 / 4) ::
                  (i3 % 4 * 64 + i4) :: bs)
              | none => none
            | none => none
        | none => none
    | _, _ => none
  | _ => none

def b64encode (s : Str) : Str := b64encodeBytes (s.map Char.toNat)

def b64decode (s : Str) : Option Str :=
  (b64decodeBytes s).map (List.map Char.ofNat)

/- ## JSON decoding into a string-to-string map
     (model of encoding/json Unmarshal into map[string]string) -/

def isWs (c : Char) : Bool := c = ' ' ∨ c = '\t' ∨ c = '\n' ∨ c = '\r'

def skipWs : Str → Str
  | [] => []
  | c :: rest => if isWs c then skipWs rest else c :: rest

def unescape (e : Char) : Option Char :=
  if e = '\"' then some '\"'
  else if e = '\\' then some '\\'
  else if e = '/' then some '/'
  else if e = 'b' then some (Char.ofNat 8)
  else if e = 'f' then some (Char.ofNat 12)
  else if e = 'n' then some '\n'
  else if e = 'r' then some '\r'
  else if e = 't' then some '\t'
  else none

/-- Body of a JSON string, after its opening quote; yields content and rest. -/
def parseJStringBody : Str → Option (Str × Str)
  | [] => none
  | '\"' :: rest => some ([], rest)
  | '\\' :: e :: rest =>
    match unescape e with
    | none => none
    | some c =>
      match parseJStringBody rest with
      | none => none
      | some (s, r) => some (c :: s, r)
  | '\\' :: [] => none
  | c :: rest =>
    match parseJStringBody rest with
    | none => none
    | some (s, r) => some (c :: s, r)

/-- Members of a JSON object, expecting a string key next; duplicate keys
    follow Go semantics (the last occurrence wins). -/
def parseMembers : Nat → Str → List (Str × Str) → Option (List (Str × Str) × Str)
  | 0, _, _ => none
  | fuel + 1, s, acc =>
    match skipWs s with
    | '\"' :: rest =>
      match parseJStringBody rest with
      | none => none
      | some (key, r1) =>
        match skipWs r1 with
        | ':' :: r2 =>
          match skipWs r2 with
          | '\"' :: r3 =>
            match parseJStringBody r3 with
            | none => none
            | some (v, r4) =>
              match skipWs r4 with
              | ',' :: r5 => parseMembers fuel r5 (upsert acc key v)
              | '}' :: r6 => some (upsert acc key v, r6)
              | _ => none
          | _ => none
        | _ => none
    | _ => none

/-- json.Unmarshal of a flat JSON object of string pairs into map[string]string;
    a JSON null leaves the map empty without an error, as in Go. -/
def jsonDecodeStrMap (s : Str) : Option (List (Str × Str)) :=
  match skipWs s with
  | '{' :: rest =>
    match skipWs rest with
    | '}' :: r2 => if skipWs r2 = [] then some [] else none
    | _ =>
      match parseMembers (s.length + 1) rest [] with
      | none => none
      | some (m, r) => if skipWs r = [] then some m else none
  | 'n' :: 'u' :: 'l' :: 'l' :: rest => if skipWs rest = [] then some [] else none
  | _ => none

/- ## Model state -/

/-- Ambient state read by the engine: the process environment (os.Getenv,
    where an unset variable reads as the empty string) and the remote AWS
    GetSecretValue call, which yields the SecretString payload or a remote
    error. -/
structure SMState where
  env : Str → Str
  awsGet : Str → Except Str Str

/-- One provider fetch: a remote AWS GetSecretValue call, or an os.Getenv
    read (followed by a JSON decode) for the envjson provider. -/
inductive FetchEvent where
  | aws (secretID : Str)
  | envjson (secretID : Str)
deriving DecidableEq, Repr

structure ValAttr where
  smService : Option Unit

/-- A value of the dynamically typed connection map (map[string]any):
    either a string or some non-string value. -/
inductive ConnVal where
  | str (s : Str)
  | nonString
deriving DecidableEq, Repr

/-- One structured debug log line emitted for a found secret. -/
structure LogRecord where
  msg : Str
  key : Str
  val : Str
  length : Nat
deriving DecidableEq, Repr

def secretProviderAWSSecretsManager : Str := s2l "aws"

def secretProviderEnvJSON : Str := s2l "envjson"

/-- newValAttr: config.LoadDefaultConfig plus client construction; the source
    always constructs a (non-nil) secretsmanager client from the ambient
    configuration, so construction is modelled as succeeding with a present
    service. -/
def newValAttr (_pluginEnvVars : List (Str × Str)) : Except Str ValAttr :=
  .ok { smService := some () }

/-- getAWSSecretValue: issues the remote call and deserializes the payload
    as a flat string-to-string JSON object. -/
def getAWSSecretValue (st : SMState) (svc : Option Unit) (secretID : Str) :
    Except Str (List (Str × Str)) :=
  match svc with
  | none => .error (s2l "secret manager not configured")
  | some _ =>
    match st.awsGet secretID with
    | .error e => .error e
    | .ok payload =>
      match jsonDecodeStrMap payload with
      | none => .error (s2l "failed deserializing secret key/val")
      | some m => .ok m

def errAwsNotConfigured : Str := s2l "secret manager is missing required aws credentials"

def errAwsGetFailed (secretID secretKey e : Str) : Str :=
  s2l "failed to get " ++ secretID ++ s2l "/" ++ secretKey ++ s2l ", err=" ++ e

def errAwsKeyNotFound (secretID secretKey : Str) : Str :=
  s2l "key not found, secretid=" ++ secretID ++ s2l ", secretkey=" ++ secretKey

def errEnvNotFound (secretID : Str) : Str :=
  s2l "env not found for secret id " ++ quoteStr secretID

def errEnvJsonDecode (secretID : Str) : Str :=
  s2l "failed decoding secret id " ++ quoteStr secretID ++ s2l " to json, err=invalid json"

def errEnvjsonKeyNotFound (secretID secretKey : Str) : Str :=
  s2l "secret key " ++ quoteStr secretKey ++ s2l " not found in secret id " ++ quoteStr secretID

def errProviderNotImplemented (secretProvider : Str) : Str :=
  s2l "secret provider " ++ quoteStr secretProvider ++ s2l " not implemented"

/-- parseConnectionVal: splits a decoded connection value on ":" and, when it
    has exactly three segments, resolves it through the named provider.
    Alongside the Go result it returns the trace of provider fetches the call
    performed. -/
def parseConnectionVal (st : SMState) (a : ValAttr) (val : Str) :
    Except Str Str × List FetchEvent :=
  match goSplit ':' val with
  | [secretProvider, secretID, secretKey] =>
    if secretProvider = secretProviderAWSSecretsManager then
      match a.smService with
      | none => (.error errAwsNotConfigured, [])
      | some _ =>
        match getAWSSecretValue st a.smService secretID with
        | .error e => (.error (errAwsGetFailed secretID secretKey e), [.aws secretID])
        | .ok keyVal =>
          match lookupVal secretKey keyVal with
          | none => (.error (errAwsKeyNotFound secretID secretKey), [.aws secretID])
          | some secretVal => (.ok secretVal, [.aws secretID])
    else if secretProvider = secretProviderEnvJSON then
      let envJson := st.env secretID
      if envJson = [] then (.error (errEnvNotFound secretID), [.envjson secretID])
      else
        match jsonDecodeStrMap envJson with
        | none => (.error (errEnvJsonDecode secretID), [.envjson secretID])
        | some envMap =>
          match lookupVal secretKey envMap with
          | none => (.error (errEnvjsonKeyNotFound secretID secretKey), [.envjson secretID])
          | some v => (.ok v, [.envjson secretID])
    else (.error (errProviderNotImplemented secretProvider), [])
  | _ => (.ok [], [])

/-- logRedactVal: the structured debug record logged for a resolved secret. -/
def logRedactVal (envKey : Str) (val : Str) : LogRecord :=
  let redactVal := s2l "#######"
  let redactVal :=
    if val.length > 8 then
      val.take 2 ++ s2l "###" ++ val.drop (val.length - 2)
    else redactVal
  { msg := s2l "found secret", key := envKey, val := redactVal, length := val.length }

def errPluginDecode (key : Str) : Str :=
  s2l "failed to decode plugin config key " ++ key ++ s2l ", err=illegal base64 data"

/-- The first loop of secretManagerGetter: decode every plugin configuration
    value from base64 and write it into the process environment under its key
    (os.Setenv, modelled as a function update; it does not fail for the keys
    the plugin uses). -/
def setPluginEnvs (env : Str → Str) : List (Str × Str) → Except Str (Str → Str)
  | [] => .ok env
  | (key, val) :: rest =>
    match b64decode val with
    | none => .error (errPluginDecode key)
    | some decVal => setPluginEnvs (fun k => if k = key then decVal else env k) rest

def errConnValType (envKey : Str) : Str :=
  s2l "connection env value inconsistent type, envkey=" ++ envKey ++ s2l ", got=non-string, want=string"

def errConnValDecode (envKey : Str) : Str :=
  s2l "failed decoding val, envkey=" ++ envKey ++ s2l ", err=illegal base64 data"

/-- The per-entry body of the connection loop of secretManagerGetter: assert
    the dynamic value is a string, decode it from base64 and resolve it via
    parseConnectionVal. `.ok none` is the bypass outcome (the entry
    contributes nothing to the output); `.ok (some v)` is a non-empty
    resolved secret value. -/
def processEntry (st : SMState) (attr : ValAttr) (envKey : Str) (val : ConnVal) :
    Except Str (Option Str) × List FetchEvent :=
  match val with
  | .nonString => (.error (errConnValType envKey), [])
  | .str encVal =>
    match b64decode encVal with
    | none => (.error (errConnValDecode envKey), [])
    | some decVal =>
      match parseConnectionVal st attr decVal with
      | (.error e, tr) => (.error e, tr)
      | (.ok secretVal, tr) =>
        if secretVal = [] then (.ok none, tr) else (.ok (some secretVal), tr)

/-- The connection loop of secretManagerGetter. The accumulator mirrors the
    lazily initialized response map: `none` is the Go nil map, and it becomes
    non-nil as soon as an entry passes base64 decoding, even when that entry
    is later bypassed. A resolved value is re-encoded to base64 before being
    stored under the entry key. -/
def connLoop (st : SMState) (attr : ValAttr) :
    List (Str × ConnVal) → Option (List (Str × Str)) →
    Except Str (Option (List (Str × Str))) × List FetchEvent
  | [], acc => (.ok acc, [])
  | (envKey, val) :: rest, acc =>
    match processEntry st attr envKey val with
    | (.error e, tr) => (.error e, tr)
    | (.ok none, tr) =>
      ((connLoop st attr rest (some (acc.getD []))).1,
       tr ++ (connLoop st attr rest (some (acc.getD []))).2)
    | (.ok (some secretVal), tr) =>
      ((connLoop st attr rest (some (acc.getD [] ++ [(envKey, b64encode secretVal)]))).1,
       tr ++ (connLoop st attr rest (some (acc.getD [] ++ [(envKey, b64encode secretVal)]))).2)

/-- secretManagerGetter: one full resolution pass. First every plugin
    configuration value is decoded and written into the process environment;
    then the value attribute (AWS client) is constructed; then every
    connection entry is decoded, resolved and re-encoded. The second
    component is the trace of provider fetches performed by the pass. -/
def secretManagerGetter (st : SMState) (pluginEnvVars : List (Str × Str))
    (connectionEnvVars : List (Str × ConnVal)) :
    Except Str (Option (List (Str × Str))) × List FetchEvent :=
  match setPluginEnvs st.env pluginEnvVars with
  | .error e => (.error e, [])
  | .ok env' =>
    match newValAttr pluginEnvVars with
    | .error e => (.error e, [])
    | .ok attr => connLoop { st with env := env' } attr connectionEnvVars none

/- ## Observation helpers -/

def exceptIsOk {ε α : Type _} : Except ε α → Bool
  | .ok _ => true
  | .error _ => false

def fetchId : FetchEvent → Str
  | .aws i => i
  | .envjson i => i

/-- How many fetches of the trace target the given secret-id. -/
def countFetches (id : Str) (tr : List FetchEvent) : Nat :=
  (tr.filter (fun e => fetchId e = id)).length

/-- Does a decoded connection value parse as a three-segment reference with
    a recognized provider and the given secret-id? -/
def decodedRefersTo (id : Str) (d : Str) : Bool :=
  match goSplit ':' d with
  | [p, i, _] =>
    if (p = secretProviderAWSSecretsManager ∨ p = secretProviderEnvJSON) ∧ i = id
    then true else false
  | _ => false

/-- Does the (dynamically typed, base64-encoded) connection value parse as a
    three-segment reference with a recognized provider and the given
    secret-id? -/
def entryRefersTo (id : Str) : ConnVal → Bool
  | .nonString => false
  | .str enc =>
    match b64decode enc with
    | none => false
    | some d => decodedRefersTo id d

/-- The output mapping of a pass, reading the Go nil map and a failed pass
    as the empty mapping. -/
def outputMap : Except Str (Option (List (Str × Str))) → List (Str × Str)
  | .ok m => m.getD []
  | .error _ => []

instance {ε α : Type _} [DecidableEq ε] [DecidableEq α] : DecidableEq (Except ε α) := fun x y =>
  match x, y with
  | .ok a, .ok b =>
    if h : a = b then .isTrue (by rw [h])
    else .isFalse (by intro hh; cases hh; exact h rfl)
  | .ok _, .error _ => .isFalse (by intro hh; cases hh)
  | .error _, .ok _ => .isFalse (by intro hh; cases hh)
  | .error e, .error f =>
    if h : e = f then .isTrue (by rw [h])
    else .isFalse (by intro hh; cases hh; exact h rfl)

/- ## Concrete states used by witnesses and counterexamples -/

/-- A state with an empty environment and an unreachable remote store. -/
def stTriv : SMState :=
  { env := fun _ => [], awsGet := fun _ => .error (s2l "unreachable") }

/-- SECRETS holds a bundle with HOST mapped to db.internal. -/
def stDb : SMState :=
  { env := fun id => if id = s2l "SECRETS" then s2l "\x7b\"HOST\":\"db.internal\"\x7d" else [],
    awsGet := fun _ => .error (s2l "unreachable") }

/-- SECRETS holds a bundle with the two keys HOST and PORT. -/
def stAB : SMState :=
  { env := fun id => if id = s2l "SECRETS" then s2l "\x7b\"HOST\":\"a\",\"PORT\":\"b\"\x7d" else [],
    awsGet := fun _ => .error (s2l "unreachable") }

/-- SECRETS holds a bundle in which HOST resolves to the empty string. -/
def stEmptyHost : SMState :=
  { env := fun id => if id = s2l "SECRETS" then s2l "\x7b\"HOST\":\"\"\x7d" else [],
    awsGet := fun _ => .error (s2l "unreachable") }

/-- SECRETS holds a bundle with only the key HOST. -/
def stX : SMState :=
  { env := fun id => if id = s2l "SECRETS" then s2l "\x7b\"HOST\":\"x\"\x7d" else [],
    awsGet := fun _ => .error (s2l "unreachable") }

/- ## Helper lemmas -/

theorem goSplit_no_sep {sep : Char} {s : Str} (h : sep ∉ s) : goSplit sep s = [s] := by
  induction s with
  | nil => simp [goSplit]
  | cons c rest ih =>
    have hc : ¬ c = sep := fun e => h (e ▸ List.mem_cons_self c rest)
    have hr : sep ∉ rest := fun m => h (List.mem_cons_of_mem _ m)
    simp [goSplit, hc, ih hr]

theorem goSplit_sep_append {sep : Char} {a : Str} (b : Str) (h : sep ∉ a) :
    goSplit sep (a ++ sep :: b) = a :: goSplit sep b := by
  induction a with
  | nil => simp [goSplit]
  | cons c a' ih =>
    have hc : ¬ c = sep := fun e => h (e ▸ List.mem_cons_self c a')
    have ha' : sep ∉ a' := fun m => h (List.mem_cons_of_mem _ m)
    simp [goSplit, hc, ih ha']

theorem leadsWith_self (p b : Str) : leadsWith p (p ++ b) = true := by
  induction p with
  | nil => simp [leadsWith]
  | cons c ps ih => simp [leadsWith, ih]

theorem containsSub_self_append (p b : Str) : containsSub p (p ++ b) = true := by
  cases hp : p ++ b with
  | nil =>
    have : p = [] := by
      cases p with
      | nil => rfl
      | cons c cs => simp at hp
    simp [this, containsSub, leadsWith]
  | cons c cs =>
    rw [containsSub, ← hp, leadsWith_self]
    simp

theorem containsSub_append_self (p a b : Str) : containsSub p (a ++ (p ++ b)) = true := by
  induction a with
  | nil => simpa using containsSub_self_append p b
  | cons c a' ih => simp [containsSub, ih]

theorem countFetches_append (id : Str) (a b : List FetchEvent) :
    countFetches id (a ++ b) = countFetches id a + countFetches id b := by
  simp [countFetches, List.filter_append]

theorem hasKey_append (k : Str) (l1 l2 : List (Str × Str)) :
    hasKey k (l1 ++ l2) = (hasKey k l1 || hasKey k l2) := by
  induction l1 with
  | nil => simp [hasKey]
  | cons hd rest ih =>
    obtain ⟨k', v'⟩ := hd
    by_cases h : k' = k <;> simp [hasKey, h, ih]

theorem keys_unique {α β : Type _} {l : List (α × β)} (h : (l.map Prod.fst).Nodup)
    {k : α} {a b : β} (ha : (k, a) ∈ l) (hb : (k, b) ∈ l) : a = b := by
  induction l with
  | nil => cases ha
  | cons hd rest ih =>
    rw [List.map_cons, List.nodup_cons] at h
    rcases List.mem_cons.mp ha with h1 | h1 <;> rcases List.mem_cons.mp hb with h2 | h2
    · rw [← h1] at h2; exact (Prod.mk.injEq .. ▸ h2).2.symm
    · exfalso
      apply h.1
      rw [← h1]
      simpa using List.mem_map_of_mem Prod.fst h2
    · exfalso
      apply h.1
      rw [← h2]
      simpa using List.mem_map_of_mem Prod.fst h1
    · exact ih h.2 h1 h2

/- ## C3: parse round-trip -/

/-- C3: for strings p, id, k free of colons, with p a recognized provider
    token, splitting the joined reference string "p:id:k" on ":" (the parse
    step of parseConnectionVal, lines 53-57 of main.go) recovers exactly the
    triple [p, id, k]: the parse is the inverse of joining with ":". -/
theorem goSplit_roundTrip (p id k : Str)
    (hp : p = secretProviderAWSSecretsManager ∨ p = secretProviderEnvJSON)
    (h1 : ':' ∉ p) (h2 : ':' ∉ id) (h3 : ':' ∉ k) :
    goSplit ':' (p ++ ':' :: (id ++ ':' :: k)) = [p, id, k] := by
  rw [goSplit_sep_append _ h1, goSplit_sep_append _ h2, goSplit_no_sep h3]

/-- C3 witness: the round-trip at the concrete triple (envjson, SECRETS, HOST). -/
theorem goSplit_roundTrip_witness :
    goSplit ':' (s2l "envjson" ++ ':' :: (s2l "SECRETS" ++ ':' :: s2l "HOST")) =
      [s2l "envjson", s2l "SECRETS", s2l "HOST"] :=
  goSplit_roundTrip _ _ _ (Or.inr rfl) (by decide) (by decide) (by decide)

/- ## C4: redaction -/

/-- C4: the redacted value logged for a secret is the fixed 7-character
    placeholder "#######" whenever the value has length at most 8, and
    otherwise the first 2 characters, the fixed separator "###" and the last
    2 characters of the value (4 revealed characters in a 7-character
    result); the true length is carried as a separate field of the log
    record, whose value field holds only the redacted form. -/
theorem logRedactVal_spec (envKey val : Str) :
    (val.length ≤ 8 → (logRedactVal envKey val).val = s2l "#######") ∧
    (val.length > 8 →
      (logRedactVal envKey val).val =
        val.take 2 ++ s2l "###" ++ val.drop (val.length - 2) ∧
      ((logRedactVal envKey val).val).length = 7) ∧
    (logRedactVal envKey val).length = val.length ∧
    (logRedactVal envKey val).key = envKey := by
  refine ⟨?_, ?_, rfl, rfl⟩
  · intro h
    have hng : ¬ val.length > 8 := by omega
    simp [logRedactVal, hng]
  · intro h
    refine ⟨by simp [logRedactVal, h], ?_⟩
    have h3 : (s2l "###").length = 3 := rfl
    simp [logRedactVal, h, List.length_append, List.length_take, List.length_drop, h3]
    omega

/-- C4 witness: redaction of a 10-character value reveals its first and last
    two characters around the separator, and of a short value the fixed
    placeholder. -/
theorem logRedactVal_spec_witness :
    (logRedactVal (s2l "K") (s2l "abcdefghij")).val = s2l "ab###ij" ∧
    (logRedactVal (s2l "K") (s2l "secret")).val = s2l "#######" := by
  constructor
  · have h := ((logRedactVal_spec (s2l "K") (s2l "abcdefghij")).2.1 (by decide)).1
    rw [h]; decide
  · exact (logRedactVal_spec (s2l "K") (s2l "secret")).1 (by decide)

/- ## C8: end-to-end envjson scenario -/

/-- C8: with the environment variable SECRETS holding the JSON object
    mapping HOST to db.internal, a pass over the single entry DB_HOST =
    base64("envjson:SECRETS:HOST") succeeds and returns exactly the mapping
    DB_HOST = base64("db.internal"). -/
theorem endToEnd_envjson_pass :
    (secretManagerGetter stDb []
      [(s2l "DB_HOST", .str (s2l "ZW52anNvbjpTRUNSRVRTOkhPU1Q="))]).1 =
      .ok (some [(s2l "DB_HOST", s2l "ZGIuaW50ZXJuYWw=")]) := by
  rfl

/- ## C1: provider fetch counts -/

/-- Reduction of parseConnectionVal when the value splits into exactly three
    segments. -/
theorem parseConnectionVal_three {st : SMState} {a : ValAttr} {d p i kk : Str}
    (hsp : goSplit ':' d = [p, i, kk]) :
    parseConnectionVal st a d =
      (if p = secretProviderAWSSecretsManager then
        match a.smService with
        | none => (.error errAwsNotConfigured, [])
        | some _ =>
          match getAWSSecretValue st a.smService i with
          | .error e => (.error (errAwsGetFailed i kk e), [.aws i])
          | .ok keyVal =>
            match lookupVal kk keyVal with
            | none => (.error (errAwsKeyNotFound i kk), [.aws i])
            | some secretVal => (.ok secretVal, [.aws i])
      else if p = secretProviderEnvJSON then
        if st.env i = [] then (.error (errEnvNotFound i), [.envjson i])
        else
          match jsonDecodeStrMap (st.env i) with
          | none => (.error (errEnvJsonDecode i), [.envjson i])
          | some envMap =>
            match lookupVal kk envMap with
            | none => (.error (errEnvjsonKeyNotFound i kk), [.envjson i])
            | some v => (.ok v, [.envjson i])
      else (.error (errProviderNotImplemented p), [])) := by
  unfold parseConnectionVal
  rw [hsp]

/-- Reduction of decodedRefersTo when the value splits into exactly three
    segments. -/
theorem decodedRefersTo_three {id d p i kk : Str}
    (hsp : goSplit ':' d = [p, i, kk]) :
    decodedRefersTo id d =
      (if (p = secretProviderAWSSecretsManager ∨ p = secretProviderEnvJSON) ∧ i = id
       then true else false) := by
  unfold decodedRefersTo
  rw [hsp]

/-- Reduction of decodedRefersTo when the value does not split into three
    segments. -/
theorem decodedRefersTo_not3 {id d : Str}
    (hsp : (goSplit ':' d).length ≠ 3) : decodedRefersTo id d = false := by
  unfold decodedRefersTo
  rcases hs : goSplit ':' d with _ | ⟨p, _ | ⟨i, _ | ⟨kk, _ | ⟨x, xs⟩⟩⟩⟩ <;>
    first
      | rfl
      | exact absurd (by rw [hs]; simp) hsp

/-- parseConnectionVal on a value that does not split into three segments:
    no error, empty result, no fetch. -/
theorem parseConnectionVal_not3 (st : SMState) (a : ValAttr) {d : Str}
    (hsp : (goSplit ':' d).length ≠ 3) :
    parseConnectionVal st a d = (.ok [], []) := by
  unfold parseConnectionVal
  rcases hs : goSplit ':' d with _ | ⟨p, _ | ⟨i, _ | ⟨kk, _ | ⟨x, xs⟩⟩⟩⟩ <;>
    first
      | rfl
      | exact absurd (by rw [hs]; simp) hsp

theorem parseConnectionVal_ok_count (st : SMState) (a : ValAttr) (d : Str)
    {sv : Str} {tr : List FetchEvent}
    (h : parseConnectionVal st a d = (.ok sv, tr)) (id : Str) :
    countFetches id tr = if decodedRefersTo id d then 1 else 0 := by
  by_cases h3 : (goSplit ':' d).length = 3
  case neg =>
    rw [parseConnectionVal_not3 st a h3] at h
    obtain ⟨-, rfl⟩ := Prod.mk.injEq .. ▸ h
    rw [decodedRefersTo_not3 h3]
    simp [countFetches]
  case pos =>
  obtain ⟨p, i, kk, hsp⟩ : ∃ p i kk, goSplit ':' d = [p, i, kk] := by
    rcases hs : goSplit ':' d with _ | ⟨p, _ | ⟨i, _ | ⟨kk, _ | ⟨x, xs⟩⟩⟩⟩ <;>
      rw [hs] at h3 <;>
      first
        | exact ⟨p, i, kk, rfl⟩
        | simp at h3
  rw [parseConnectionVal_three hsp] at h
  rw [decodedRefersTo_three hsp]
  by_cases hpA : p = secretProviderAWSSecretsManager
  · rw [if_pos hpA] at h
    rcases hsvc : a.smService with _ | u
    · rw [hsvc] at h; simp at h
    · rw [hsvc] at h
      rcases hget : getAWSSecretValue st (some u) i with e | kv
      · rw [hget] at h; simp at h
      · rw [hget] at h
        simp at h
        rcases hlk : lookupVal kk kv with _ | v
        · rw [hlk] at h; simp at h
        · rw [hlk] at h
          obtain ⟨-, rfl⟩ : v = sv ∧ [FetchEvent.aws i] = tr := by
            simpa using h
          by_cases hid : i = id <;>
            simp [countFetches, fetchId, hid, hpA]
  · rw [if_neg hpA] at h
    by_cases hpE : p = secretProviderEnvJSON
    · rw [if_pos hpE] at h
      by_cases he : st.env i = []
      · rw [if_pos he] at h; simp at h
      · rw [if_neg he] at h
        rcases hj : jsonDecodeStrMap (st.env i) with _ | m
        · rw [hj] at h; simp at h
        · rw [hj] at h
          simp at h
          rcases hlk : lookupVal kk m with _ | v
          · rw [hlk] at h; simp at h
          · rw [hlk] at h
            obtain ⟨-, rfl⟩ : v = sv ∧ [FetchEvent.envjson i] = tr := by
              simpa using h
            by_cases hid : i = id <;>
              simp [countFetches, fetchId, hid, hpA, hpE]
    · rw [if_neg hpE] at h; simp at h

theorem processEntry_ok_count (st : SMState) (attr : ValAttr) (k : Str) (v : ConnVal)
    {r : Option Str} {tr : List FetchEvent}
    (h : processEntry st attr k v = (.ok r, tr)) (id : Str) :
    countFetches id tr = if entryRefersTo id v then 1 else 0 := by
  cases v with
  | nonString => simp [processEntry] at h
  | str enc =>
    rcases hd : b64decode enc with _ | d <;>
      simp only [processEntry, hd] at h
    · simp at h
    · rcases hp : parseConnectionVal st attr d with ⟨pr, ptr⟩
      rw [hp] at h
      cases pr with
      | error e => simp at h
      | ok sv =>
        have htr : ptr = tr := by
          by_cases hsv : sv = [] <;> simp [hsv] at h <;> exact h.2
        rw [← htr]
        rw [show entryRefersTo id (.str enc) = decodedRefersTo id d by
          simp [entryRefersTo, hd]]
        exact parseConnectionVal_ok_count st attr d hp id

theorem connLoop_count (st : SMState) (attr : ValAttr) (id : Str) :
    ∀ (entries : List (Str × ConnVal)) (acc : Option (List (Str × Str))),
      exceptIsOk (connLoop st attr entries acc).1 = true →
      countFetches id (connLoop st attr entries acc).2 =
        (entries.filter (fun e => entryRefersTo id e.2)).length := by
  intro entries
  induction entries with
  | nil => intro acc _; simp [connLoop, countFetches]
  | cons hd rest ih =>
    intro acc hok
    obtain ⟨k0, v0⟩ := hd
    rcases hpe : processEntry st attr k0 v0 with ⟨pr, ptr⟩
    cases pr with
    | error e =>
      rw [show connLoop st attr ((k0, v0) :: rest) acc = (.error e, ptr) by
        simp [connLoop, hpe]] at hok
      simp [exceptIsOk] at hok
    | ok r =>
      have hcnt := processEntry_ok_count st attr k0 v0 hpe id
      cases r with
      | none =>
        simp only [connLoop, hpe] at hok ⊢
        rw [countFetches_append, hcnt, ih _ hok]
        by_cases href : entryRefersTo id v0 <;>
          simp [List.filter_cons, href] <;> omega
      | some sv =>
        simp only [connLoop, hpe] at hok ⊢
        rw [countFetches_append, hcnt, ih _ hok]
        by_cases href : entryRefersTo id v0 <;>
          simp [List.filter_cons, href] <;> omega

/-- C1 (amended): within one pass that completes successfully, the provider
    fetch for a secret-id is performed once per connection entry whose value
    is a three-segment reference with a recognized provider and that
    secret-id: there is no per-pass cache, so N entries sharing a secret-id
    cause N fetches rather than one. -/
theorem countFetches_eq_referencing_entries (st : SMState)
    (pv : List (Str × Str)) (entries : List (Str × ConnVal)) (id : Str)
    (hok : exceptIsOk (secretManagerGetter st pv entries).1 = true) :
    countFetches id (secretManagerGetter st pv entries).2 =
      (entries.filter (fun e => entryRefersTo id e.2)).length := by
  rcases hpv : setPluginEnvs st.env pv with e | env' <;>
    simp only [secretManagerGetter, hpv, newValAttr] at hok ⊢
  · simp [exceptIsOk] at hok
  · exact connLoop_count _ _ _ _ _ hok

/-- C1 witness for the amended claim: a successful pass with two entries
    referencing the secret-id SECRETS performs exactly two fetches. -/
theorem countFetches_eq_referencing_entries_witness :
    countFetches (s2l "SECRETS")
      (secretManagerGetter stAB []
        [(s2l "A", .str (s2l "ZW52anNvbjpTRUNSRVRTOkhPU1Q=")),
         (s2l "B", .str (s2l "ZW52anNvbjpTRUNSRVRTOlBPUlQ="))]).2 =
      ([(s2l "A", ConnVal.str (s2l "ZW52anNvbjpTRUNSRVRTOkhPU1Q=")),
        (s2l "B", ConnVal.str (s2l "ZW52anNvbjpTRUNSRVRTOlBPUlQ="))].filter
          (fun e => entryRefersTo (s2l "SECRETS") e.2)).length :=
  countFetches_eq_referencing_entries stAB _ _ _ rfl

/-- C1 counterexample: a single successful pass in which two connection
    entries reference the same secret-id SECRETS performs the envjson
    provider fetch (the os.Getenv read plus JSON decode) twice for SECRETS,
    refuting the at-most-one-fetch-per-secret-id invariant. -/
theorem secretManagerGetter_refetches_same_secret_id :
    exceptIsOk
      (secretManagerGetter stAB []
        [(s2l "A", .str (s2l "ZW52anNvbjpTRUNSRVRTOkhPU1Q=")),
         (s2l "B", .str (s2l "ZW52anNvbjpTRUNSRVRTOlBPUlQ="))]).1 = true ∧
    countFetches (s2l "SECRETS")
      (secretManagerGetter stAB []
        [(s2l "A", .str (s2l "ZW52anNvbjpTRUNSRVRTOkhPU1Q=")),
         (s2l "B", .str (s2l "ZW52anNvbjpTRUNSRVRTOlBPUlQ="))]).2 = 2 := by
  exact ⟨rfl, rfl⟩

/- ## C2: all-or-nothing failure -/

theorem connLoop_error_of_entry_error (st : SMState) (attr : ValAttr)
    {entries : List (Str × ConnVal)} {k : Str} {v : ConnVal}
    (hmem : (k, v) ∈ entries)
    (hfail : exceptIsOk (processEntry st attr k v).1 = false) :
    ∀ acc, exceptIsOk (connLoop st attr entries acc).1 = false := by
  induction entries with
  | nil => cases hmem
  | cons hd rest ih =>
    intro acc
    obtain ⟨k0, v0⟩ := hd
    rcases hpe : processEntry st attr k0 v0 with ⟨pr, ptr⟩
    rcases List.mem_cons.mp hmem with heq | hmem'
    · obtain ⟨rfl, rfl⟩ : k = k0 ∧ v = v0 := by
        simpa using heq
      rw [hpe] at hfail
      cases pr with
      | error e => simp [connLoop, hpe, exceptIsOk]
      | ok r => simp [exceptIsOk] at hfail
    · cases pr with
      | error e => simp [connLoop, hpe, exceptIsOk]
      | ok r =>
        cases r with
        | none => simpa [connLoop, hpe] using ih hmem' (some (acc.getD []))
        | some sv =>
          simpa [connLoop, hpe] using
            ih hmem' (some (acc.getD [] ++ [(k0, b64encode sv)]))

/-- C2: the pass is all-or-nothing: whenever any connection entry fails
    (non-string value, base64 decode failure, or any parse/provider
    resolution failure of its decoded value), the whole call returns an
    error and therefore carries no output mapping at all — values resolved
    for other entries are discarded, never returned partially. -/
theorem secretManagerGetter_all_or_nothing (st : SMState)
    (pv : List (Str × Str)) (entries : List (Str × ConnVal))
    (env' : Str → Str) (k : Str) (v : ConnVal)
    (hpv : setPluginEnvs st.env pv = .ok env')
    (hmem : (k, v) ∈ entries)
    (hfail : exceptIsOk
      (processEntry { st with env := env' } { smService := some () } k v).1 = false) :
    exceptIsOk (secretManagerGetter st pv entries).1 = false := by
  simp only [secretManagerGetter, hpv, newValAttr]
  exact connLoop_error_of_entry_error _ _ hmem hfail none

/-- C2 witness: a pass over two entries, the first resolving successfully
    and the second referencing a key missing from the bundle, fails as a
    whole. -/
theorem secretManagerGetter_all_or_nothing_witness :
    exceptIsOk
      (secretManagerGetter stDb []
        [(s2l "DB_HOST", .str (s2l "ZW52anNvbjpTRUNSRVRTOkhPU1Q=")),
         (s2l "DB_PORT", .str (s2l "ZW52anNvbjpTRUNSRVRTOk1JU1NJTkc="))]).1 = false :=
  secretManagerGetter_all_or_nothing stDb [] _ stDb.env
    (s2l "DB_PORT") (.str (s2l "ZW52anNvbjpTRUNSRVRTOk1JU1NJTkc="))
    rfl (by decide) rfl

/- ## C10: the plugin-configuration phase -/

theorem setPluginEnvs_keep {pv : List (Str × Str)} :
    ∀ {env env' : Str → Str}, setPluginEnvs env pv = .ok env' →
      ∀ k, k ∉ pv.map Prod.fst → env' k = env k := by
  induction pv with
  | nil =>
    intro env env' h k _
    simp only [setPluginEnvs] at h
    obtain rfl : env = env' := by simpa using h
    rfl
  | cons hd rest ih =>
    intro env env' h k hk
    obtain ⟨k0, v0⟩ := hd
    rcases hd0 : b64decode v0 with _ | d0 <;> rw [setPluginEnvs, hd0] at h
    · simp at h
    · have hk0 : ¬ k = k0 := by
        intro e; exact hk (by simp [e])
      have hk' : k ∉ rest.map Prod.fst := fun m => hk (by simp [m])
      rw [ih h k hk']
      simp [hk0]

theorem setPluginEnvs_get {pv : List (Str × Str)} :
    ∀ {env env' : Str → Str}, setPluginEnvs env pv = .ok env' →
      (pv.map Prod.fst).Nodup →
      ∀ k v d, (k, v) ∈ pv → b64decode v = some d → env' k = d := by
  induction pv with
  | nil =>
    intro env env' _ _ k v d hm
    cases hm
  | cons hd rest ih =>
    intro env env' h hnd k v d hm hdec
    obtain ⟨k0, v0⟩ := hd
    rw [List.map_cons, List.nodup_cons] at hnd
    rcases hd0 : b64decode v0 with _ | d0 <;> rw [setPluginEnvs, hd0] at h
    · simp at h
    · rcases List.mem_cons.mp hm with heq | hm'
      · obtain ⟨rfl, rfl⟩ : k = k0 ∧ v = v0 := by simpa using heq
        obtain rfl : d0 = d := by
          rw [hd0] at hdec; simpa using hdec
        rw [setPluginEnvs_keep h k hnd.1]
        simp
      · exact ih h hnd.2 k v d hm' hdec

theorem setPluginEnvs_err_of_mem {pv : List (Str × Str)} {k v : Str}
    (hmem : (k, v) ∈ pv) (hbad : b64decode v = none) :
    ∀ env, exceptIsOk (setPluginEnvs env pv) = false := by
  induction pv with
  | nil => cases hmem
  | cons hd rest ih =>
    intro env
    obtain ⟨k0, v0⟩ := hd
    rcases hd0 : b64decode v0 with _ | d0 <;> rw [setPluginEnvs, hd0]
    · simp [exceptIsOk]
    · rcases List.mem_cons.mp hmem with heq | hm'
      · obtain ⟨rfl, rfl⟩ : k = k0 ∧ v = v0 := by simpa using heq
        rw [hbad] at hd0; cases hd0
      · exact ih hm' _

/-- C10: before any connection entry is processed, secretManagerGetter
    decodes every plugin configuration value from base64 and writes it into
    the process environment under its key (making it readable by envjson
    resolution later in the same pass, which runs against the updated
    environment); a key outside the plugin configuration keeps its prior
    value; and if any plugin value is not valid base64 the whole pass fails
    with no connection entry processed — no provider fetch happens and the
    result does not depend on the connection entries at all. -/
theorem plugin_env_phase_spec (st : SMState) (pv : List (Str × Str)) :
    (∀ env', setPluginEnvs st.env pv = .ok env' →
      (∀ entries, secretManagerGetter st pv entries =
        connLoop { st with env := env' } { smService := some () } entries none) ∧
      ((pv.map Prod.fst).Nodup →
        ∀ k v d, (k, v) ∈ pv → b64decode v = some d → env' k = d) ∧
      (∀ k, k ∉ pv.map Prod.fst → env' k = st.env k)) ∧
    (∀ k v, (k, v) ∈ pv → b64decode v = none →
      ∀ entries,
        exceptIsOk (secretManagerGetter st pv entries).1 = false ∧
        (secretManagerGetter st pv entries).2 = [] ∧
        secretManagerGetter st pv entries = secretManagerGetter st pv []) := by
  constructor
  · intro env' hpv
    refine ⟨?_, fun hnd k v d hm hdec => setPluginEnvs_get hpv hnd k v d hm hdec,
      fun k hk => setPluginEnvs_keep hpv k hk⟩
    intro entries
    simp [secretManagerGetter, hpv, newValAttr]
  · intro k v hm hbad entries
    have herr := setPluginEnvs_err_of_mem hm hbad st.env
    rcases hpv : setPluginEnvs st.env pv with e | env'
    · simp [secretManagerGetter, hpv, exceptIsOk]
    · rw [hpv] at herr; simp [exceptIsOk] at herr

/-- C10 witness: a plugin configuration binding SECRETS to base64("a")
    makes SECRETS read as "a" in the environment the connection loop runs
    against. -/
theorem plugin_env_phase_spec_witness :
    (fun k => if k = s2l "SECRETS" then s2l "a" else stTriv.env k) (s2l "SECRETS")
      = s2l "a" :=
  ((plugin_env_phase_spec stTriv [(s2l "SECRETS", s2l "YQ==")]).1
      (fun k => if k = s2l "SECRETS" then s2l "a" else stTriv.env k) rfl).2.1
    (by decide) (s2l "SECRETS") (s2l "YQ==") (s2l "a") (by decide) (by decide)

/- ## C5 and C6: bypassed entries are omitted without error -/

theorem connLoop_no_key (st : SMState) (attr : ValAttr) (k : Str) :
    ∀ (entries : List (Str × ConnVal)) (acc : Option (List (Str × Str)))
      (m : Option (List (Str × Str))) (tr : List FetchEvent),
      connLoop st attr entries acc = (.ok m, tr) →
      hasKey k (acc.getD []) = false →
      (∀ cv, (k, cv) ∈ entries →
        ∀ sv, (processEntry st attr k cv).1 ≠ .ok (some sv)) →
      hasKey k (m.getD []) = false := by
  intro entries
  induction entries with
  | nil =>
    intro acc m tr h hacc _
    obtain ⟨rfl, -⟩ : acc = m ∧ [] = tr := by
      simpa [connLoop] using h
    exact hacc
  | cons hd rest ih =>
    intro acc m tr h hacc hnores
    obtain ⟨k0, v0⟩ := hd
    rcases hpe : processEntry st attr k0 v0 with ⟨pr, ptr⟩
    cases pr with
    | error e =>
      rw [show connLoop st attr ((k0, v0) :: rest) acc = (.error e, ptr) by
        simp [connLoop, hpe]] at h
      simp at h
    | ok r =>
      cases r with
      | none =>
        simp only [connLoop, hpe] at h
        obtain ⟨h1, -⟩ : (connLoop st attr rest (some (acc.getD []))).1 = .ok m ∧ _ = tr := by
          simpa using h
        rcases hrec : connLoop st attr rest (some (acc.getD [])) with ⟨r2, tr2⟩
        rw [hrec] at h1
        have h1' : r2 = Except.ok m := h1
        exact ih _ _ tr2 (by rw [hrec, h1']) (by simpa using hacc)
          (fun cv hm sv => hnores cv (List.mem_cons_of_mem _ hm) sv)
      | some sv =>
        simp only [connLoop, hpe] at h
        obtain ⟨h1, -⟩ :
            (connLoop st attr rest (some (acc.getD [] ++ [(k0, b64encode sv)]))).1 = .ok m ∧
              _ = tr := by
          simpa using h
        have hk0 : ¬ k0 = k := by
          intro e
          subst e
          exact hnores v0 (List.mem_cons_self _ _) sv (by rw [hpe])
        rcases hrec : connLoop st attr rest (some (acc.getD [] ++ [(k0, b64encode sv)])) with ⟨r2, tr2⟩
        rw [hrec] at h1
        have h1' : r2 = Except.ok m := h1
        refine ih _ _ tr2 (by rw [hrec, h1']) ?_
          (fun cv hm sv' => hnores cv (List.mem_cons_of_mem _ hm) sv')
        simp [hasKey_append, hacc, hasKey, hk0]

/-- processEntry on an entry whose decoded value is not a three-segment
    reference: the bypass outcome, with no error and no fetch. -/
theorem processEntry_not3 (st : SMState) (attr : ValAttr) (k : Str)
    {encv d : Str} (hdec : b64decode encv = some d)
    (hseg : (goSplit ':' d).length ≠ 3) :
    processEntry st attr k (.str encv) = (.ok none, []) := by
  simp [processEntry, hdec, parseConnectionVal_not3 st attr hseg]

/-- processEntry on an entry whose decoded value resolves to the empty
    string: the bypass outcome, with no error. -/
theorem processEntry_empty_resolution (st : SMState) (attr : ValAttr) (k : Str)
    {encv d : Str} (hdec : b64decode encv = some d)
    (hres : (parseConnectionVal st attr d).1 = .ok []) :
    (processEntry st attr k (.str encv)).1 = .ok none := by
  rcases hp : parseConnectionVal st attr d with ⟨pr, ptr⟩
  rw [hp] at hres
  obtain rfl : pr = .ok [] := hres
  simp [processEntry, hdec, hp]

/-- C5: a connection entry whose base64-decoded value does not split on ":"
    into exactly three segments is treated as not a secret reference: its
    processing yields no error (the bypass outcome) and, in a pass over
    entries with distinct keys that returns an output mapping, the entry
    key is absent from that mapping. -/
theorem malformed_reference_bypassed (st : SMState) (pv : List (Str × Str))
    (entries : List (Str × ConnVal)) (env' : Str → Str) (k : Str) (encv d : Str)
    (hpv : setPluginEnvs st.env pv = .ok env')
    (hmem : (k, .str encv) ∈ entries)
    (hdec : b64decode encv = some d)
    (hseg : (goSplit ':' d).length ≠ 3) :
    (processEntry { st with env := env' } { smService := some () } k (.str encv)).1 =
      .ok none ∧
    ((entries.map Prod.fst).Nodup →
      hasKey k (outputMap (secretManagerGetter st pv entries).1) = false) := by
  constructor
  · rw [processEntry_not3 _ _ _ hdec hseg]
  · intro hnd
    rcases hres : secretManagerGetter st pv entries with ⟨res, tr⟩
    cases res with
    | error e => simp [outputMap, hasKey]
    | ok m =>
      rw [show secretManagerGetter st pv entries =
          connLoop { st with env := env' } { smService := some () } entries none by
        simp [secretManagerGetter, hpv, newValAttr]] at hres
      simp only [outputMap]
      refine connLoop_no_key _ _ k entries none m tr hres (by simp [hasKey]) ?_
      intro cv hm sv hcon
      obtain rfl : cv = ConnVal.str encv := keys_unique hnd hm hmem
      rw [processEntry_not3 _ _ _ hdec hseg] at hcon
      cases hcon

/-- C5 witness: an entry decoding to the one-segment plain value
    "not-a-reference" is bypassed without error and absent from the output
    of its (successful) pass. -/
theorem malformed_reference_bypassed_witness :
    (processEntry stTriv { smService := some () } (s2l "K")
      (.str (s2l "bm90LWEtcmVmZXJlbmNl"))).1 = .ok none ∧
    hasKey (s2l "K")
      (outputMap (secretManagerGetter stTriv []
        [(s2l "K", .str (s2l "bm90LWEtcmVmZXJlbmNl"))]).1) = false := by
  have h := malformed_reference_bypassed stTriv []
    [(s2l "K", .str (s2l "bm90LWEtcmVmZXJlbmNl"))] stTriv.env (s2l "K")
    (s2l "bm90LWEtcmVmZXJlbmNl") (s2l "not-a-reference")
    rfl (by decide) (by decide) (by decide)
  exact ⟨h.1, h.2 (by decide)⟩

/-- C6: a connection entry that parses as a three-segment reference and
    whose resolution succeeds with the empty string is bypassed: its
    processing yields no error, and in a pass over entries with distinct
    keys that returns an output mapping, the entry key is absent from that
    mapping. -/
theorem empty_resolution_omitted (st : SMState) (pv : List (Str × Str))
    (entries : List (Str × ConnVal)) (env' : Str → Str) (k : Str) (encv d : Str)
    (hpv : setPluginEnvs st.env pv = .ok env')
    (hmem : (k, .str encv) ∈ entries)
    (hdec : b64decode encv = some d)
    (_hseg : (goSplit ':' d).length = 3)
    (hres : (parseConnectionVal { st with env := env' } { smService := some () } d).1 =
      .ok []) :
    (processEntry { st with env := env' } { smService := some () } k (.str encv)).1 =
      .ok none ∧
    ((entries.map Prod.fst).Nodup →
      hasKey k (outputMap (secretManagerGetter st pv entries).1) = false) := by
  constructor
  · exact processEntry_empty_resolution _ _ _ hdec hres
  · intro hnd
    rcases hgr : secretManagerGetter st pv entries with ⟨res, tr⟩
    cases res with
    | error e => simp [outputMap, hasKey]
    | ok m =>
      rw [show secretManagerGetter st pv entries =
          connLoop { st with env := env' } { smService := some () } entries none by
        simp [secretManagerGetter, hpv, newValAttr]] at hgr
      simp only [outputMap]
      refine connLoop_no_key _ _ k entries none m tr hgr (by simp [hasKey]) ?_
      intro cv hm sv hcon
      obtain rfl : cv = ConnVal.str encv := keys_unique hnd hm hmem
      rw [processEntry_empty_resolution _ _ _ hdec hres] at hcon
      cases hcon

/-- C6 witness: with SECRETS holding a bundle in which HOST is the empty
    string, the reference envjson:SECRETS:HOST resolves to the empty string,
    is bypassed without error, and its key is absent from the output of its
    (successful) pass. -/
theorem empty_resolution_omitted_witness :
    (processEntry stEmptyHost { smService := some () } (s2l "DB_HOST")
      (.str (s2l "ZW52anNvbjpTRUNSRVRTOkhPU1Q="))).1 = .ok none ∧
    hasKey (s2l "DB_HOST")
      (outputMap (secretManagerGetter stEmptyHost []
        [(s2l "DB_HOST", .str (s2l "ZW52anNvbjpTRUNSRVRTOkhPU1Q="))]).1) = false := by
  have h := empty_resolution_omitted stEmptyHost []
    [(s2l "DB_HOST", .str (s2l "ZW52anNvbjpTRUNSRVRTOkhPU1Q="))] stEmptyHost.env
    (s2l "DB_HOST") (s2l "ZW52anNvbjpTRUNSRVRTOkhPU1Q=") (s2l "envjson:SECRETS:HOST")
    rfl (by decide) (by decide) (by decide) (by decide)
  exact ⟨h.1, h.2 (by decide)⟩

/- ## C7: the envjson provider -/

/-- Reduction of parseConnectionVal on a well-formed envjson reference to
    the envjson provider branch. -/
theorem envjson_branch (st : SMState) (a : ValAttr) {id key : Str}
    (h1 : ':' ∉ id) (h2 : ':' ∉ key) :
    parseConnectionVal st a (s2l "envjson" ++ ':' :: (id ++ ':' :: key)) =
      (if st.env id = [] then (.error (errEnvNotFound id), [.envjson id])
       else
         match jsonDecodeStrMap (st.env id) with
         | none => (.error (errEnvJsonDecode id), [.envjson id])
         | some envMap =>
           match lookupVal key envMap with
           | none => (.error (errEnvjsonKeyNotFound id key), [.envjson id])
           | some v => (.ok v, [.envjson id])) := by
  have hsp : goSplit ':' (s2l "envjson" ++ ':' :: (id ++ ':' :: key)) =
      [s2l "envjson", id, key] := by
    rw [goSplit_sep_append _ (by decide), goSplit_sep_append _ h1, goSplit_no_sep h2]
  rw [parseConnectionVal_three hsp, if_neg (by decide),
    if_pos (show s2l "envjson" = secretProviderEnvJSON from rfl)]

/-- C7: resolving a reference "envjson:ID:KEY" (ID and KEY free of colons)
    succeeds with value v exactly when the environment variable ID reads as
    a non-empty string that decodes as a JSON object of string pairs whose
    mapping contains KEY with value v; and it fails with an error exactly
    when the variable is unset or empty, or its content does not decode as
    such a JSON object, or KEY is absent from the decoded mapping. -/
theorem envjson_resolution_iff (st : SMState) (a : ValAttr) (id key : Str)
    (h1 : ':' ∉ id) (h2 : ':' ∉ key) :
    (∀ v, (parseConnectionVal st a (s2l "envjson" ++ ':' :: (id ++ ':' :: key))).1 = .ok v ↔
      (st.env id ≠ [] ∧
        ∃ m, jsonDecodeStrMap (st.env id) = some m ∧ lookupVal key m = some v)) ∧
    (exceptIsOk (parseConnectionVal st a (s2l "envjson" ++ ':' :: (id ++ ':' :: key))).1 = false ↔
      (st.env id = [] ∨ jsonDecodeStrMap (st.env id) = none ∨
        ∃ m, jsonDecodeStrMap (st.env id) = some m ∧ lookupVal key m = none)) := by
  rw [envjson_branch st a h1 h2]
  by_cases he : st.env id = []
  · rw [if_pos he]
    constructor
    · intro v
      simp [he, exceptIsOk]
    · simp [he, exceptIsOk]
  · rw [if_neg he]
    rcases hj : jsonDecodeStrMap (st.env id) with _ | m
    · constructor
      · intro v; simp [he, hj, exceptIsOk]
      · simp [he, hj, exceptIsOk]
    · rcases hl : lookupVal key m with _ | v0
      · constructor
        · intro v; simp [he, hj, hl, exceptIsOk]
        · simp [he, hj, hl, exceptIsOk]
      · constructor
        · intro v; simp [he, hj, hl, exceptIsOk]
        · simp [he, hj, hl, exceptIsOk]

/-- C7 witness: with SECRETS holding the bundle mapping HOST to db.internal,
    envjson:SECRETS:HOST resolves to db.internal. -/
theorem envjson_resolution_iff_witness :
    (parseConnectionVal stDb { smService := some () }
      (s2l "envjson" ++ ':' :: (s2l "SECRETS" ++ ':' :: s2l "HOST"))).1 =
      .ok (s2l "db.internal") :=
  ((envjson_resolution_iff stDb { smService := some () } (s2l "SECRETS") (s2l "HOST")
      (by decide) (by decide)).1 (s2l "db.internal")).mpr
    ⟨by decide, [(s2l "HOST", s2l "db.internal")], by decide, by decide⟩

/- ## C9: context carried by resolution errors -/

/-- C9 (amended): a key-not-found resolution failure (bundle read
    successfully but lacking the requested key) fails the pass with the
    provider's own error, which carries the secret-id and the secret-key;
    the entry key is not attached to it — the loop propagates the
    resolution error unchanged. -/
theorem key_not_found_error_context (st : SMState) (pv : List (Str × Str))
    (entryKey enc id key : Str) (env' : Str → Str) (m : List (Str × Str))
    (hpv : setPluginEnvs st.env pv = .ok env')
    (h1 : ':' ∉ id) (h2 : ':' ∉ key)
    (hdec : b64decode enc = some (s2l "envjson" ++ ':' :: (id ++ ':' :: key)))
    (he : env' id ≠ [])
    (hj : jsonDecodeStrMap (env' id) = some m)
    (hl : lookupVal key m = none) :
    (secretManagerGetter st pv [(entryKey, .str enc)]).1 =
      .error (errEnvjsonKeyNotFound id key) ∧
    containsSub id (errEnvjsonKeyNotFound id key) = true ∧
    containsSub key (errEnvjsonKeyNotFound id key) = true := by
  refine ⟨?_, ?_, ?_⟩
  · have hb : parseConnectionVal { st with env := env' } { smService := some () }
        (s2l "envjson" ++ ':' :: (id ++ ':' :: key)) =
        (.error (errEnvjsonKeyNotFound id key), [.envjson id]) := by
      rw [envjson_branch _ _ h1 h2]
      simp [he, hj, hl]
    simp only [secretManagerGetter, hpv, newValAttr]
    simp [connLoop, processEntry, hdec, hb]
  · have hshape : errEnvjsonKeyNotFound id key =
        (s2l "secret key " ++ quoteStr key ++ s2l " not found in secret id " ++ ['\"']) ++
          (id ++ ['\"']) := by
      simp [errEnvjsonKeyNotFound, quoteStr]
    rw [hshape]
    exact containsSub_append_self id _ _
  · have hshape2 : errEnvjsonKeyNotFound id key =
        (s2l "secret key " ++ ['\"']) ++
          (key ++ (['\"'] ++ (s2l " not found in secret id " ++ quoteStr id))) := by
      simp [errEnvjsonKeyNotFound, quoteStr]
    rw [hshape2]
    exact containsSub_append_self key _ _

/-- C9 witness: the amended statement at a concrete key-not-found failure:
    the pass error names the secret-id SECRETS and the secret-key MISSING. -/
theorem key_not_found_error_context_witness :
    (secretManagerGetter stX []
      [(s2l "ENTRY", .str (s2l "ZW52anNvbjpTRUNSRVRTOk1JU1NJTkc="))]).1 =
      .error (errEnvjsonKeyNotFound (s2l "SECRETS") (s2l "MISSING")) ∧
    containsSub (s2l "SECRETS")
      (errEnvjsonKeyNotFound (s2l "SECRETS") (s2l "MISSING")) = true ∧
    containsSub (s2l "MISSING")
      (errEnvjsonKeyNotFound (s2l "SECRETS") (s2l "MISSING")) = true :=
  key_not_found_error_context stX [] (s2l "ENTRY")
    (s2l "ZW52anNvbjpTRUNSRVRTOk1JU1NJTkc=") (s2l "SECRETS") (s2l "MISSING")
    stX.env [(s2l "HOST", s2l "x")]
    rfl (by decide) (by decide) (by decide) (by decide) (by decide) (by decide)

/-- C9 counterexample: at a concrete key-not-found failure the pass error
    does not contain the entry key DB_HOST: the error carries only the
    secret-id and secret-key, refuting the claim that the entry key is part
    of the error context. -/
theorem pass_error_lacks_entry_key :
    (secretManagerGetter stX []
      [(s2l "DB_HOST", .str (s2l "ZW52anNvbjpTRUNSRVRTOk1JU1NJTkc="))]).1 =
      .error (errEnvjsonKeyNotFound (s2l "SECRETS") (s2l "MISSING")) ∧
    containsSub (s2l "DB_HOST")
      (errEnvjsonKeyNotFound (s2l "SECRETS") (s2l "MISSING")) = false := by
  exact ⟨rfl, rfl⟩

end SMPlugin
